import Mathlib

/-!
# Animated quad renderer: vertex transform and checkerboard texture

A shallow embedding of `src/OpenGL/src/App.cpp`.

* The vertex shader `vertSrc` (GLSL) is embedded as the pure function `vertMain`.
  GLSL `float` is idealised as exact rational arithmetic (`ℚ`): rounding is not
  modelled, every operation is the exact one. The GLSL built-ins used by the
  shader (`clamp`, `mix`, the column-major `mat2` constructor, matrix-vector
  product, vector-scalar product) are embedded after their GLSL definitions.
* The checkerboard fill loop of `main` is embedded as two nested counted loops
  over a byte buffer; a store outside the buffer makes the run fail (`none`).
  The buffer carries a log of the indices stored to, in program order.
-/

namespace App

/-! ## GLSL values and built-ins -/

/-- GLSL `vec2`. -/
structure Vec2 where
  x : ℚ
  y : ℚ
deriving DecidableEq, Repr

/-- GLSL `vec4`. -/
structure Vec4 where
  x : ℚ
  y : ℚ
  z : ℚ
  w : ℚ
deriving DecidableEq, Repr

/-- GLSL `mat2`, stored as its two columns. -/
structure Mat2 where
  col0 : Vec2
  col1 : Vec2
deriving DecidableEq, Repr

/-- GLSL `clamp(x, minVal, maxVal) = min(max(x, minVal), maxVal)`. -/
def clamp (x minVal maxVal : ℚ) : ℚ := min (max x minVal) maxVal

/-- GLSL `mix(x, y, a) = x * (1 - a) + y * a`. -/
def mix (x y a : ℚ) : ℚ := x * (1 - a) + y * a

/-- GLSL `mat2(a, b, c, d)`: the scalars fill the matrix in column-major order,
so the first column is `(a, b)` and the second is `(c, d)`. -/
def mat2 (a b c d : ℚ) : Mat2 := ⟨⟨a, b⟩, ⟨c, d⟩⟩

/-- GLSL `mat2 * vec2`: the linear combination of the columns. -/
def Mat2.mulVec (m : Mat2) (v : Vec2) : Vec2 :=
  ⟨m.col0.x * v.x + m.col1.x * v.y, m.col0.y * v.x + m.col1.y * v.y⟩

/-- GLSL `vec2 * float`: componentwise. -/
def Vec2.scale (v : Vec2) (s : ℚ) : Vec2 := ⟨v.x * s, v.y * s⟩

/-! ## The vertex shader -/

/-- Line 28: `scaleT = clamp(uTime / zoomDuration, 0.0, 1.0)`. -/
def scaleT (uTime zoomDuration : ℚ) : ℚ := clamp (uTime / zoomDuration) 0 1

/-- Line 29: `stretchT = clamp((uTime - zoomDuration) / stretchDuration, 0.0, 1.0)`. -/
def stretchT (uTime zoomDuration stretchDuration : ℚ) : ℚ :=
  clamp ((uTime - zoomDuration) / stretchDuration) 0 1

/-- Line 31: `scale = mix(0.0, 1.0, scaleT)`. -/
def scale (uTime zoomDuration : ℚ) : ℚ := mix 0 1 (scaleT uTime zoomDuration)

/-- Line 32: `skew = mix(uStartSkew, 0.0, scaleT)`. -/
def skew (uTime zoomDuration uStartSkew : ℚ) : ℚ :=
  mix uStartSkew 0 (scaleT uTime zoomDuration)

/-- Line 38: `maxStretchY = 1.0`. -/
def maxStretchY : ℚ := 1

/-- Line 39: `stretchY = mix(1.0, maxStretchY, stretchT)`. -/
def stretchY (uTime zoomDuration stretchDuration : ℚ) : ℚ :=
  mix 1 maxStretchY (stretchT uTime zoomDuration stretchDuration)

/-- Lines 25-46: the body of the vertex shader's `main`, returning `gl_Position`.
The statements are kept in source order. -/
def vertMain (uTime zoomDuration stretchDuration uStartSkew : ℚ) (pos : Vec2) : Vec4 :=
  let scale := scale uTime zoomDuration
  let skew := skew uTime zoomDuration uStartSkew
  let skewMat := mat2 1 skew 0 1
  let transformed := (skewMat.mulVec pos).scale scale
  let stretchY := stretchY uTime zoomDuration stretchDuration
  let transformed : Vec2 := ⟨transformed.x, transformed.y * stretchY⟩
  let transformed : Vec2 := ⟨-transformed.x, transformed.y⟩
  ⟨transformed.x, transformed.y, 0, 1⟩

/-! ## Host data: the quad and the checkerboard texture -/

/-- Lines 8-13: `quadVerts`, one `(position, texcoord)` pair per vertex. -/
def quadVerts : List (Vec2 × Vec2) :=
  [(⟨-1, -1⟩, ⟨0, 0⟩), (⟨1, -1⟩, ⟨1, 0⟩), (⟨-1, 1⟩, ⟨0, 1⟩), (⟨1, 1⟩, ⟨1, 1⟩)]

/-- Line 113: `TW = 256`. -/
def TW : Nat := 256

/-- Line 113: `TH = 256`. -/
def TH : Nat := 256

/-- Line 114: `texData`, `TW * TH * 3` bytes, together with the log of the indices
stored to so far (most recent first). -/
structure TexBuf where
  bytes : Array Nat
  writes : List Nat

/-- An assignment `texData[i] = v` of an `unsigned char`: fails when `i` is outside
the buffer. -/
def TexBuf.store (m : TexBuf) (i v : Nat) : Option TexBuf :=
  if h : i < m.bytes.size then some ⟨m.bytes.set ⟨i, h⟩ (v % 256), i :: m.writes⟩ else none

/-- Line 117: `b = ((x / 32) % 2) ^ ((y / 32) % 2)`, an `int` converted to `bool`. -/
def checkerBit (x y : Nat) : Bool := (((x / 32) % 2) ^^^ ((y / 32) % 2)) != 0

/-- Line 118: `v = b ? 255 : 80`. -/
def texel (x y : Nat) : Nat := if checkerBit x y then 255 else 80

/-- Lines 119-121: the index expression `3 * (y * TW + x) + c`. -/
def texIndex (x y c : Nat) : Nat := 3 * (y * TW + x) + c

/-- A counted loop `for (int i = 0; i < n; ++i) body(i)` over a state that may fail. -/
def forLoop {σ : Type} (n : Nat) (body : Nat → σ → Option σ) (s : σ) : Option σ :=
  match n with
  | 0 => some s
  | k + 1 => (forLoop k body s).bind (body k)

/-- Lines 117-121: the body of the inner loop, for pixel `(x, y)`. -/
def pixelBody (y x : Nat) (m : TexBuf) : Option TexBuf :=
  let v := texel x y
  ((m.store (texIndex x y 0) v).bind fun m1 =>
    m1.store (texIndex x y 1) v).bind fun m2 =>
      m2.store (texIndex x y 2) v

/-- Lines 116-122: the inner loop over `x`, for row `y`. -/
def rowBody (y : Nat) (m : TexBuf) : Option TexBuf := forLoop TW (pixelBody y) m

/-- Lines 115-123: the checkerboard fill, started on the uninitialised buffer `tex0`
with an empty store log. -/
def fillTexture (tex0 : Array Nat) : Option TexBuf := forLoop TH rowBody ⟨tex0, []⟩

/-! ## Specification vocabulary for the fill loop -/

/-- The value the fill leaves in byte `i`: the texel of the pixel `i / 3`. -/
def byteVal (i : Nat) : Nat := texel ((i / 3) % TW) ((i / 3) / TW)

/-- Loop invariant after `n` bytes have been stored. -/
def FillInv (n : Nat) (m : TexBuf) : Prop :=
  m.bytes.size = TW * TH * 3 ∧ m.writes = (List.range n).reverse ∧
    ∀ i, i < n → m.bytes[i]? = some (byteVal i)

/-! ## Shader lemmas -/

theorem clamp_nonneg (x : ℚ) : 0 ≤ clamp x 0 1 := by
  unfold clamp
  exact le_min (le_max_right x 0) zero_le_one

theorem clamp_le_one (x : ℚ) : clamp x 0 1 ≤ 1 := by
  unfold clamp
  exact min_le_right _ _

theorem clamp_of_nonpos {x : ℚ} (h : x ≤ 0) : clamp x 0 1 = 0 := by
  unfold clamp
  rw [max_eq_right h]
  exact min_eq_left zero_le_one

theorem clamp_of_one_le {x : ℚ} (h : 1 ≤ x) : clamp x 0 1 = 1 := by
  unfold clamp
  rw [max_eq_left (le_trans zero_le_one h)]
  exact min_eq_right h

theorem clamp_mono {a b : ℚ} (h : a ≤ b) : clamp a 0 1 ≤ clamp b 0 1 := by
  unfold clamp
  exact min_le_min (max_le_max h le_rfl) le_rfl

theorem scaleT_nonneg (t zd : ℚ) : 0 ≤ scaleT t zd := clamp_nonneg _

theorem scaleT_le_one (t zd : ℚ) : scaleT t zd ≤ 1 := clamp_le_one _

theorem scaleT_of_nonpos {t zd : ℚ} (hz : 0 < zd) (ht : t ≤ 0) : scaleT t zd = 0 :=
  clamp_of_nonpos (div_nonpos_of_nonpos_of_nonneg ht hz.le)

theorem scaleT_of_ge {t zd : ℚ} (hz : 0 < zd) (ht : zd ≤ t) : scaleT t zd = 1 :=
  clamp_of_one_le ((one_le_div hz).mpr ht)

theorem stretchT_of_le {t zd sd : ℚ} (hs : 0 < sd) (ht : t ≤ zd) : stretchT t zd sd = 0 :=
  clamp_of_nonpos (div_nonpos_of_nonpos_of_nonneg (sub_nonpos.mpr ht) hs.le)

theorem scaleT_mono {t1 t2 zd : ℚ} (hz : 0 < zd) (h : t1 ≤ t2) :
    scaleT t1 zd ≤ scaleT t2 zd :=
  clamp_mono (div_le_div_of_nonneg_right h hz.le)

theorem scale_eq (t zd : ℚ) : scale t zd = scaleT t zd := by
  simp [scale, mix]

theorem skew_eq (t zd k : ℚ) : skew t zd k = k * (1 - scaleT t zd) := by
  simp [skew, mix]

theorem stretchY_eq_one (t zd sd : ℚ) : stretchY t zd sd = 1 := by
  simp [stretchY, maxStretchY, mix]

/-- The shader body in closed form: the column-major `mat2(1, skew, 0, 1)` adds
`skew * x` to the `y` component. -/
theorem vertMain_eq (t zd sd k : ℚ) (pos : Vec2) :
    vertMain t zd sd k pos =
      ⟨-(scale t zd * pos.x), scale t zd * (skew t zd k * pos.x + pos.y), 0, 1⟩ := by
  simp only [vertMain, mat2, Mat2.mulVec, Vec2.scale, stretchY_eq_one]
  congr 1 <;> ring

/-! ## Claims about the vertex shader -/

/-- C1 (as stated, refuted): at `zoomDuration = 3`, `stretchDuration = 1.5`,
`startSkew = 1`, `t = 1.5` and vertex `(1, -1)` the shader outputs
`(-0.5, -0.25, 0, 1)`; this is neither the claimed `(-0.25, -0.5, 0, 1)` nor the
claimed general form `(-(scale * (x + skew * y)), scale * y * stretchY, 0, 1)`. -/
theorem C1_counterexample :
    (0 : ℚ) ≤ 3/2 ∧ (0 : ℚ) < 3 ∧ (0 : ℚ) < 3/2 ∧
    scale (3/2) 3 = 1/2 ∧ skew (3/2) 3 1 = 1/2 ∧ stretchY (3/2) 3 (3/2) = 1 ∧
    vertMain (3/2) 3 (3/2) 1 ⟨1, -1⟩ = ⟨-1/2, -1/4, 0, 1⟩ ∧
    vertMain (3/2) 3 (3/2) 1 ⟨1, -1⟩ ≠ ⟨-1/4, -1/2, 0, 1⟩ ∧
    vertMain (3/2) 3 (3/2) 1 ⟨1, -1⟩ ≠
      ⟨-(scale (3/2) 3 * (1 + skew (3/2) 3 1 * (-1))),
        scale (3/2) 3 * (-1) * stretchY (3/2) 3 (3/2), 0, 1⟩ := by
  have hT : scaleT (3/2) 3 = 1/2 := by
    simp only [scaleT, clamp]
    norm_num
  have hs : scale (3/2) 3 = 1/2 := by rw [scale_eq, hT]
  have hk : skew (3/2) 3 1 = 1/2 := by rw [skew_eq, hT]; norm_num
  have hv : vertMain (3/2) 3 (3/2) 1 ⟨1, -1⟩ = ⟨-1/2, -1/4, 0, 1⟩ := by
    rw [vertMain_eq, hs, hk]
    norm_num
  refine ⟨by norm_num, by norm_num, by norm_num, hs, hk, stretchY_eq_one _ _ _, hv, ?_, ?_⟩
  · rw [hv]
    intro h
    have h2 := congrArg Vec4.x h
    norm_num at h2
  · rw [hv, hs, hk, stretchY_eq_one]
    intro h
    have h2 := congrArg Vec4.x h
    norm_num at h2

/-- C1 (amended): for `t ≥ 0`, `zoomDuration > 0`, `stretchDuration > 0`, any
`startSkew` and position `(x, y)`: `scale = scaleT`, `skew = startSkew * (1 - scaleT)`,
`stretchY = 1`, and `gl_Position` is the shear `[[1, 0], [skew, 1]]` (the column-major
reading of `mat2(1, skew, 0, 1)`) applied to `(x, y)`, scaled, stretched and mirrored,
i.e. `(-(scale * x), scale * (skew * x + y) * stretchY, 0, 1)`; at `zoomDuration = 3`,
`stretchDuration = 1.5`, `startSkew = 1`, `t = 1.5`, vertex `(1, -1)` this is
`(-0.5, -0.25, 0, 1)`. -/
theorem C1_vertMain_shear (t zd sd k x y : ℚ) (_ht : 0 ≤ t) (_hz : 0 < zd)
    (_hs : 0 < sd) :
    scale t zd = clamp (t / zd) 0 1 ∧
    skew t zd k = k * (1 - clamp (t / zd) 0 1) ∧
    stretchY t zd sd = 1 ∧
    vertMain t zd sd k ⟨x, y⟩ =
      ⟨-(scale t zd * x), scale t zd * (skew t zd k * x + y) * stretchY t zd sd, 0, 1⟩ ∧
    vertMain (3/2) 3 (3/2) 1 ⟨1, -1⟩ = ⟨-1/2, -1/4, 0, 1⟩ := by
  refine ⟨scale_eq _ _, skew_eq _ _ _, stretchY_eq_one _ _ _, ?_, ?_⟩
  · rw [vertMain_eq, stretchY_eq_one, mul_one]
  · have hT : scaleT (3/2) 3 = 1/2 := by
      simp only [scaleT, clamp]
      norm_num
    rw [vertMain_eq, scale_eq, skew_eq, hT]
    norm_num

theorem C1_vertMain_shear_witness :
    (0 : ℚ) ≤ 3/2 ∧ (0 : ℚ) < 3 ∧ (0 : ℚ) < 3/2 ∧
    vertMain (3/2) 3 (3/2) 1 ⟨1, -1⟩ = ⟨-1/2, -1/4, 0, 1⟩ :=
  ⟨by norm_num, by norm_num, by norm_num,
    (C1_vertMain_shear (3/2) 3 (3/2) 1 1 (-1) (by norm_num) (by norm_num)
      (by norm_num)).2.2.2.2⟩

/-- C2: for `t ≤ 0`, `zoomDuration > 0`, `stretchDuration > 0`, any `startSkew` and any
position, the shader computes `scale = 0`, `skew = startSkew` and
`gl_Position = (0, 0, 0, 1)`. -/
theorem C2_before_start (t zd sd k x y : ℚ) (ht : t ≤ 0) (hz : 0 < zd) (_hs : 0 < sd) :
    scale t zd = 0 ∧ skew t zd k = k ∧ vertMain t zd sd k ⟨x, y⟩ = ⟨0, 0, 0, 1⟩ := by
  have hT := scaleT_of_nonpos hz ht
  have h1 : scale t zd = 0 := by rw [scale_eq, hT]
  refine ⟨h1, by rw [skew_eq, hT]; ring, ?_⟩
  rw [vertMain_eq, h1]
  simp

theorem C2_before_start_witness :
    (-2 : ℚ) ≤ 0 ∧ (0 : ℚ) < 3 ∧ (0 : ℚ) < 3/2 ∧
    scale (-2) 3 = 0 ∧ skew (-2) 3 1 = 1 ∧ vertMain (-2) 3 (3/2) 1 ⟨1, -1⟩ = ⟨0, 0, 0, 1⟩ :=
  ⟨by norm_num, by norm_num, by norm_num,
    C2_before_start (-2) 3 (3/2) 1 1 (-1) (by norm_num) (by norm_num) (by norm_num)⟩

/-- C3: for `zoomDuration > 0`, `stretchDuration > 0`, any `startSkew`, every
`t ≥ zoomDuration + stretchDuration` and any position `(x, y)`, the shader computes
`scale = 1`, `skew = 0`, `stretchY = 1` and `gl_Position = (-x, y, 0, 1)`. -/
theorem C3_after_end (t zd sd k x y : ℚ) (hz : 0 < zd) (hs : 0 < sd) (ht : zd + sd ≤ t) :
    scale t zd = 1 ∧ skew t zd k = 0 ∧ stretchY t zd sd = 1 ∧
    vertMain t zd sd k ⟨x, y⟩ = ⟨-x, y, 0, 1⟩ := by
  have hT : scaleT t zd = 1 := scaleT_of_ge hz (by linarith)
  have h1 : scale t zd = 1 := by rw [scale_eq, hT]
  have h2 : skew t zd k = 0 := by rw [skew_eq, hT]; ring
  refine ⟨h1, h2, stretchY_eq_one _ _ _, ?_⟩
  rw [vertMain_eq, h1, h2]
  simp

theorem C3_after_end_witness :
    (0 : ℚ) < 3 ∧ (0 : ℚ) < 3/2 ∧ (3 : ℚ) + 3/2 ≤ 5 ∧
    scale 5 3 = 1 ∧ skew 5 3 1 = 0 ∧ stretchY 5 3 (3/2) = 1 ∧
    vertMain 5 3 (3/2) 1 ⟨1, -1⟩ = ⟨-1, -1, 0, 1⟩ :=
  ⟨by norm_num, by norm_num, by norm_num,
    C3_after_end 5 3 (3/2) 1 1 (-1) (by norm_num) (by norm_num) (by norm_num)⟩

/-- C4 (as stated, refuted): with the negative `startSkew = -1`, `zoomDuration = 3`,
`t1 = 0` and `t2 = 3`, `startSkew - skew` drops from `0` to `-1`. -/
theorem C4_counterexample :
    (0 : ℚ) < 3 ∧ (0 : ℚ) ≤ 0 ∧ (0 : ℚ) ≤ 3 ∧ (3 : ℚ) ≤ 3 ∧
    (-1 : ℚ) - skew 0 3 (-1) = 0 ∧ (-1 : ℚ) - skew 3 3 (-1) = -1 ∧
    ¬ ((-1 : ℚ) - skew 0 3 (-1) ≤ (-1 : ℚ) - skew 3 3 (-1)) := by
  have h0 : scaleT 0 3 = 0 := scaleT_of_nonpos (by norm_num) le_rfl
  have h3 : scaleT 3 3 = 1 := scaleT_of_ge (by norm_num) le_rfl
  have e0 : (-1 : ℚ) - skew 0 3 (-1) = 0 := by rw [skew_eq, h0]; norm_num
  have e3 : (-1 : ℚ) - skew 3 3 (-1) = -1 := by rw [skew_eq, h3]; norm_num
  refine ⟨by norm_num, le_rfl, by norm_num, le_rfl, e0, e3, ?_⟩
  rw [e0, e3]
  norm_num

/-- C4 (amended): for `zoomDuration > 0` and `t1 ≤ t2` in `[0, zoomDuration]`,
`scale(t1) ≤ scale(t2)` for every `startSkew`, and
`startSkew - skew(t1) ≤ startSkew - skew(t2)` for every `startSkew ≥ 0`. -/
theorem C4_monotone (t1 t2 zd k : ℚ) (hz : 0 < zd) (_h1 : 0 ≤ t1) (h12 : t1 ≤ t2)
    (_h2 : t2 ≤ zd) :
    scale t1 zd ≤ scale t2 zd ∧ (0 ≤ k → k - skew t1 zd k ≤ k - skew t2 zd k) := by
  have hm := scaleT_mono hz h12
  refine ⟨by rw [scale_eq, scale_eq]; exact hm, fun hk => ?_⟩
  rw [skew_eq, skew_eq]
  have := mul_le_mul_of_nonneg_left hm hk
  linarith

theorem C4_monotone_witness :
    (0 : ℚ) < 3 ∧ (0 : ℚ) ≤ 1 ∧ (1 : ℚ) ≤ 2 ∧ (2 : ℚ) ≤ 3 ∧
    scale 1 3 ≤ scale 2 3 ∧ ((0 : ℚ) ≤ 1 → 1 - skew 1 3 1 ≤ 1 - skew 2 3 1) :=
  ⟨by norm_num, by norm_num, by norm_num, by norm_num,
    C4_monotone 1 2 3 1 (by norm_num) (by norm_num) (by norm_num) (by norm_num)⟩

/-- C5: for every value of `stretchT`, `mix(1.0, maxStretchY, stretchT)` with
`maxStretchY = 1.0` is exactly `1`; hence `stretchY = 1` at every `t`, multiplying a
`y` component by `stretchY` leaves it unchanged, and `gl_Position` does not depend on
`stretchDuration`. -/
theorem C5_stretch_noop (t zd k : ℚ) (pos : Vec2) :
    maxStretchY = 1 ∧
    (∀ a : ℚ, mix 1 maxStretchY a = 1) ∧
    (∀ sd : ℚ, stretchY t zd sd = 1) ∧
    (∀ sd v : ℚ, v * stretchY t zd sd = v) ∧
    (∀ sd sd' : ℚ, vertMain t zd sd k pos = vertMain t zd sd' k pos) := by
  refine ⟨rfl, fun a => by simp [mix, maxStretchY], fun sd => stretchY_eq_one _ _ _,
    fun sd v => by rw [stretchY_eq_one, mul_one], fun sd sd' => ?_⟩
  rw [vertMain_eq, vertMain_eq]

/-- C6: for `zoomDuration > 0`, `stretchDuration > 0` and every `t`: if
`t ≤ zoomDuration` then `stretchT = 0`; if `t ≥ zoomDuration` then `scaleT = 1`; and
never `scaleT < 1` while `stretchT > 0`. -/
theorem C6_phases_sequenced (t zd sd : ℚ) (hz : 0 < zd) (hs : 0 < sd) :
    (t ≤ zd → stretchT t zd sd = 0) ∧
    (zd ≤ t → scaleT t zd = 1) ∧
    ¬ (scaleT t zd < 1 ∧ 0 < stretchT t zd sd) := by
  refine ⟨stretchT_of_le hs, scaleT_of_ge hz, ?_⟩
  rintro ⟨h1, h2⟩
  rcases le_total t zd with h | h
  · rw [stretchT_of_le hs h] at h2
    exact lt_irrefl _ h2
  · rw [scaleT_of_ge hz h] at h1
    exact lt_irrefl _ h1

theorem C6_phases_sequenced_witness :
    (0 : ℚ) < 3 ∧ (0 : ℚ) < 3/2 ∧
    ((4 : ℚ) ≤ 3 → stretchT 4 3 (3/2) = 0) ∧
    ((3 : ℚ) ≤ 4 → scaleT 4 3 = 1) ∧
    ¬ (scaleT 4 3 < 1 ∧ 0 < stretchT 4 3 (3/2)) :=
  ⟨by norm_num, by norm_num, C6_phases_sequenced 4 3 (3/2) (by norm_num) (by norm_num)⟩

/-- C8: for every `t`, `zoomDuration > 0`, `stretchDuration > 0`, `startSkew` and
position `(x, y)`, with `scale = scaleT` and `skew = startSkew * (1 - scaleT)`, the
column-major `mat2(1.0, skew, 0.0, 1.0)` shears vertically:
`gl_Position = (-(scale * x), scale * (skew * x + y), 0, 1)`; the output `x` does not
depend on `startSkew` or on the input `y`. -/
theorem C8_vertical_shear (t zd sd k x y : ℚ) (_hz : 0 < zd) (_hs : 0 < sd) :
    scale t zd = scaleT t zd ∧
    skew t zd k = k * (1 - scaleT t zd) ∧
    (mat2 1 (skew t zd k) 0 1).mulVec ⟨x, y⟩ = ⟨x, skew t zd k * x + y⟩ ∧
    vertMain t zd sd k ⟨x, y⟩ =
      ⟨-(scaleT t zd * x), scaleT t zd * (k * (1 - scaleT t zd) * x + y), 0, 1⟩ ∧
    (∀ k' y' : ℚ, (vertMain t zd sd k' ⟨x, y'⟩).x = (vertMain t zd sd k ⟨x, y⟩).x) := by
  refine ⟨scale_eq _ _, skew_eq _ _ _, by simp [mat2, Mat2.mulVec], ?_, fun k' y' => ?_⟩
  · rw [vertMain_eq, scale_eq, skew_eq]
  · rw [vertMain_eq, vertMain_eq]

theorem C8_vertical_shear_witness :
    (0 : ℚ) < 3 ∧ (0 : ℚ) < 3/2 ∧
    vertMain (3/2) 3 (3/2) 1 ⟨1, -1⟩ =
      ⟨-(scaleT (3/2) 3 * 1), scaleT (3/2) 3 * (1 * (1 - scaleT (3/2) 3) * 1 + -1), 0, 1⟩ :=
  ⟨by norm_num, by norm_num,
    (C8_vertical_shear (3/2) 3 (3/2) 1 1 (-1) (by norm_num) (by norm_num)).2.2.2.1⟩

theorem vertMain_clip (t zd sd k x y : ℚ) (hk : |k| ≤ 1) (hx : |x| ≤ 1) (hy : |y| ≤ 1) :
    |(vertMain t zd sd k ⟨x, y⟩).x| ≤ 1 ∧ |(vertMain t zd sd k ⟨x, y⟩).y| ≤ 1 := by
  have h0 := scaleT_nonneg t zd
  have h1 := scaleT_le_one t zd
  rw [vertMain_eq, scale_eq, skew_eq]
  generalize scaleT t zd = s at h0 h1
  have hkx : |k * x| ≤ 1 := by
    rw [abs_mul]
    exact mul_le_one₀ hk (abs_nonneg x) hx
  constructor
  · show |(-(s * x))| ≤ 1
    rw [abs_neg, abs_mul, abs_of_nonneg h0]
    exact mul_le_one₀ h1 (abs_nonneg x) hx
  · show |s * (k * (1 - s) * x + y)| ≤ 1
    have hu : |k * (1 - s) * x| ≤ 1 - s := by
      have : k * (1 - s) * x = (1 - s) * (k * x) := by ring
      rw [this, abs_mul, abs_of_nonneg (sub_nonneg.mpr h1)]
      exact mul_le_of_le_one_right (sub_nonneg.mpr h1) hkx
    have hsum : |k * (1 - s) * x + y| ≤ 2 - s := by
      have := abs_add (k * (1 - s) * x) y
      linarith
    rw [abs_mul, abs_of_nonneg h0]
    have h3 : s * |k * (1 - s) * x + y| ≤ s * (2 - s) :=
      mul_le_mul_of_nonneg_left hsum h0
    nlinarith [sq_nonneg (1 - s)]

theorem quadVerts_in_unit_square (v : Vec2 × Vec2) (hv : v ∈ quadVerts) :
    |v.1.x| ≤ 1 ∧ |v.1.y| ≤ 1 := by
  simp only [quadVerts, List.mem_cons, List.mem_singleton, List.not_mem_nil, or_false] at hv
  rcases hv with h | h | h | h <;> subst h <;> norm_num

/-- C9: for every `t`, `zoomDuration > 0`, `stretchDuration > 0`, every `startSkew`
with `|startSkew| ≤ 1` and every position with `|x| ≤ 1`, `|y| ≤ 1`, the output
`gl_Position` has `|x'| ≤ 1` and `|y'| ≤ 1`; this covers all four `quadVerts`. -/
theorem C9_in_clip_space (t zd sd k x y : ℚ) (_hz : 0 < zd) (_hs : 0 < sd)
    (hk : |k| ≤ 1) (hx : |x| ≤ 1) (hy : |y| ≤ 1) :
    (|(vertMain t zd sd k ⟨x, y⟩).x| ≤ 1 ∧ |(vertMain t zd sd k ⟨x, y⟩).y| ≤ 1) ∧
    ∀ v ∈ quadVerts,
      |(vertMain t zd sd k v.1).x| ≤ 1 ∧ |(vertMain t zd sd k v.1).y| ≤ 1 := by
  refine ⟨vertMain_clip t zd sd k x y hk hx hy, fun v hv => ?_⟩
  obtain ⟨h1, h2⟩ := quadVerts_in_unit_square v hv
  exact vertMain_clip t zd sd k v.1.x v.1.y hk h1 h2

theorem C9_in_clip_space_witness :
    (0 : ℚ) < 3 ∧ (0 : ℚ) < 3/2 ∧ |(1 : ℚ)| ≤ 1 ∧ |(1 : ℚ)| ≤ 1 ∧ |(-1 : ℚ)| ≤ 1 ∧
    |(vertMain (3/2) 3 (3/2) 1 ⟨1, -1⟩).x| ≤ 1 ∧ |(vertMain (3/2) 3 (3/2) 1 ⟨1, -1⟩).y| ≤ 1 :=
  ⟨by norm_num, by norm_num, by norm_num, by norm_num, by norm_num,
    (C9_in_clip_space (3/2) 3 (3/2) 1 1 (-1) (by norm_num) (by norm_num) (by norm_num)
      (by norm_num) (by norm_num)).1⟩

/-! ## The checkerboard fill loop -/

theorem texel_lt (x y : Nat) : texel x y < 256 := by
  unfold texel
  split <;> decide

theorem store_step {n v : Nat} {m : TexBuf} (hInv : FillInv n m) (hn : n < TW * TH * 3)
    (hv : v = byteVal n) : ∃ m', m.store n v = some m' ∧ FillInv (n + 1) m' := by
  obtain ⟨hsz, hw, hb⟩ := hInv
  have hlt : n < m.bytes.size := by rw [hsz]; exact hn
  refine ⟨⟨m.bytes.set ⟨n, hlt⟩ (v % 256), n :: m.writes⟩, by simp [TexBuf.store, hlt], ?_, ?_, ?_⟩
  · simp [hsz]
  · simp [hw, List.range_succ]
  · intro i hi
    have hvm : v % 256 = byteVal n := by
      rw [hv]
      exact Nat.mod_eq_of_lt (texel_lt _ _)
    rcases Nat.lt_succ_iff_lt_or_eq.mp hi with h | h
    · have hne : n ≠ i := by omega
      simp only []
      rw [Array.getElem?_set_ne _ _ _ hne]
      exact hb i h
    · subst h
      simp only []
      rw [Array.getElem?_set_eq, hvm]

theorem byteVal_texIndex {x y c : Nat} (hx : x < TW) (hc : c < 3) :
    byteVal (texIndex x y c) = texel x y := by
  have h3 : texIndex x y c / 3 = y * TW + x := by
    unfold texIndex
    omega
  have hpos : 0 < TW := by decide
  unfold byteVal
  rw [h3, Nat.mul_comm y TW, Nat.mul_add_mod, Nat.mod_eq_of_lt hx, Nat.mul_add_div hpos,
    Nat.div_eq_of_lt hx, Nat.add_zero]

theorem texIndex_lt {x y c : Nat} (hx : x < TW) (hy : y < TH) (hc : c < 3) :
    texIndex x y c < TW * TH * 3 := by
  simp only [texIndex, TW, TH] at *
  omega

theorem pixel_step {x y : Nat} {m : TexBuf} (hx : x < TW) (hy : y < TH)
    (hInv : FillInv (texIndex x y 0) m) :
    ∃ m', pixelBody y x m = some m' ∧ FillInv (texIndex (x + 1) y 0) m' := by
  obtain ⟨m1, e1, i1⟩ := store_step hInv (texIndex_lt hx hy (by decide))
    (byteVal_texIndex hx (by decide)).symm
  have i1' : FillInv (texIndex x y 1) m1 := i1
  obtain ⟨m2, e2, i2⟩ := store_step i1' (texIndex_lt hx hy (by decide))
    (byteVal_texIndex hx (by decide)).symm
  have i2' : FillInv (texIndex x y 2) m2 := i2
  obtain ⟨m3, e3, i3⟩ := store_step i2' (texIndex_lt hx hy (by decide))
    (byteVal_texIndex hx (by decide)).symm
  refine ⟨m3, ?_, ?_⟩
  · simp only [pixelBody, e1, e2, e3, Option.bind]
  · have : texIndex (x + 1) y 0 = texIndex x y 2 + 1 := by
      unfold texIndex
      omega
    rw [this]
    exact i3

theorem forLoop_succ {σ : Type} (k : Nat) (body : Nat → σ → Option σ) (s : σ) :
    forLoop (k + 1) body s = (forLoop k body s).bind (body k) := rfl

theorem row_loop {y : Nat} (hy : y < TH) (n : Nat) (hn : n ≤ TW) {m : TexBuf}
    (hInv : FillInv (texIndex 0 y 0) m) :
    ∃ m', forLoop n (pixelBody y) m = some m' ∧ FillInv (texIndex n y 0) m' := by
  induction n with
  | zero => exact ⟨m, rfl, hInv⟩
  | succ k ih =>
    obtain ⟨m1, e1, i1⟩ := ih (Nat.le_of_succ_le hn)
    obtain ⟨m2, e2, i2⟩ := pixel_step (Nat.lt_of_succ_le hn) hy i1
    exact ⟨m2, by rw [forLoop_succ, e1, Option.some_bind, e2], i2⟩

theorem rowBody_spec {y : Nat} (hy : y < TH) {m : TexBuf}
    (hInv : FillInv (texIndex 0 y 0) m) :
    ∃ m', rowBody y m = some m' ∧ FillInv (texIndex TW y 0) m' :=
  row_loop hy TW le_rfl hInv

theorem fill_loop (n : Nat) (hn : n ≤ TH) {m : TexBuf} (hInv : FillInv 0 m) :
    ∃ m', forLoop n rowBody m = some m' ∧ FillInv (texIndex 0 n 0) m' := by
  induction n with
  | zero => exact ⟨m, rfl, hInv⟩
  | succ k ih =>
    obtain ⟨m1, e1, i1⟩ := ih (Nat.le_of_succ_le hn)
    obtain ⟨m2, e2, i2⟩ := rowBody_spec (Nat.lt_of_succ_le hn) i1
    refine ⟨m2, by rw [forLoop_succ, e1, Option.some_bind, e2], ?_⟩
    have : texIndex 0 (k + 1) 0 = texIndex TW k 0 := by
      unfold texIndex
      ring
    rw [this]
    exact i2

/-- The fill succeeds on every buffer of `TW * TH * 3` bytes and ends with every byte
stored once, in index order, holding the texel of its pixel. -/
theorem fillTexture_spec (tex0 : Array Nat) (h0 : tex0.size = TW * TH * 3) :
    ∃ m, fillTexture tex0 = some m ∧ FillInv (TW * TH * 3) m := by
  have hInv : FillInv 0 ⟨tex0, []⟩ := ⟨h0, rfl, fun i hi => absurd hi (Nat.not_lt_zero i)⟩
  obtain ⟨m, e, i⟩ := fill_loop TH le_rfl hInv
  refine ⟨m, e, ?_⟩
  have : texIndex 0 TH 0 = TW * TH * 3 := by
    unfold texIndex
    ring
  rw [← this]
  exact i

theorem checkerBit_eq (x y : Nat) :
    checkerBit x y = decide ((x / 32 + y / 32) % 2 = 1) := by
  unfold checkerBit
  rw [Nat.add_mod]
  rcases Nat.mod_two_eq_zero_or_one (x / 32) with h | h <;>
    rcases Nat.mod_two_eq_zero_or_one (y / 32) with h' | h' <;>
    rw [h, h'] <;> decide

theorem texel_eq (x y : Nat) :
    texel x y = if (x / 32 + y / 32) % 2 = 1 then 255 else 80 := by
  unfold texel
  rw [checkerBit_eq]
  simp

/-! ## Claims about the checkerboard texture -/

/-- C7: for every pixel `(x, y)` with `x < 256` and `y < 256`, the fill loop runs to
completion and leaves the same value `v` in all three channel bytes of that pixel,
where `v = 255` if `(x/32 + y/32) mod 2 = 1` and `v = 80` otherwise; the XOR selector
of the code agrees with `(x/32 + y/32) mod 2` and is constant on each 32x32 block. -/
theorem C7_checkerboard (tex0 : Array Nat) (h0 : tex0.size = TW * TH * 3) (x y : Nat)
    (hx : x < 256) (hy : y < 256) :
    checkerBit x y = decide ((x / 32 + y / 32) % 2 = 1) ∧
    (∀ x' y' : Nat, x' / 32 = x / 32 → y' / 32 = y / 32 → checkerBit x' y' = checkerBit x y) ∧
    ∃ m, fillTexture tex0 = some m ∧
      ∀ c, c < 3 → m.bytes[3 * (y * 256 + x) + c]? =
        some (if (x / 32 + y / 32) % 2 = 1 then 255 else 80) := by
  refine ⟨checkerBit_eq x y, fun x' y' h1 h2 => by simp only [checkerBit, h1, h2], ?_⟩
  obtain ⟨m, e, -, -, hb⟩ := fillTexture_spec tex0 h0
  refine ⟨m, e, fun c hc => ?_⟩
  have hlt := texIndex_lt (x := x) (y := y) (c := c) hx hy hc
  have hv := hb (texIndex x y c) hlt
  rw [byteVal_texIndex hx hc, texel_eq] at hv
  exact hv

theorem C7_checkerboard_witness :
    (mkArray (TW * TH * 3) 0).size = TW * TH * 3 ∧ 40 < 256 ∧ 7 < 256 ∧
    ∃ m, fillTexture (mkArray (TW * TH * 3) 0) = some m ∧
      ∀ c, c < 3 → m.bytes[3 * (7 * 256 + 40) + c]? =
        some (if (40 / 32 + 7 / 32) % 2 = 1 then 255 else 80) :=
  ⟨Array.size_mkArray _ _, by decide, by decide,
    (C7_checkerboard (mkArray (TW * TH * 3) 0) (Array.size_mkArray _ _) 40 7 (by decide)
      (by decide)).2.2⟩

/-- C10: for `x < 256`, `y < 256`, `c < 3` the index `3 * (y * 256 + x) + c` lies below
`256 * 256 * 3`; the map `(x, y, c) ↦ index` is injective on that domain and onto
`[0, 256 * 256 * 3)`; and the fill loop, run on a buffer of that size, completes
without a store outside the buffer and stores to every index exactly once. -/
theorem C10_index_safe (tex0 : Array Nat) (h0 : tex0.size = TW * TH * 3) :
    (∀ x y c : Nat, x < 256 → y < 256 → c < 3 →
      texIndex x y c = 3 * (y * 256 + x) + c ∧ texIndex x y c < 256 * 256 * 3) ∧
    (∀ x y c x' y' c' : Nat, x < 256 → y < 256 → c < 3 → x' < 256 → y' < 256 → c' < 3 →
      texIndex x y c = texIndex x' y' c' → x = x' ∧ y = y' ∧ c = c') ∧
    (∀ i : Nat, i < 256 * 256 * 3 →
      ∃ x y c : Nat, x < 256 ∧ y < 256 ∧ c < 3 ∧ texIndex x y c = i) ∧
    ∃ m, fillTexture tex0 = some m ∧ m.bytes.size = 256 * 256 * 3 ∧
      m.writes.reverse = List.range (256 * 256 * 3) ∧
      (∀ i : Nat, i < 256 * 256 * 3 → m.writes.count i = 1) ∧
      (∀ i : Nat, 256 * 256 * 3 ≤ i → m.writes.count i = 0) := by
  refine ⟨fun x y c hx hy hc => ⟨rfl, texIndex_lt hx hy hc⟩, ?_, ?_, ?_⟩
  · intro x y c x' y' c' hx hy hc hx' hy' hc' h
    simp only [texIndex, TW] at h
    omega
  · intro i hi
    refine ⟨(i / 3) % 256, (i / 3) / 256, i % 3, Nat.mod_lt _ (by decide), ?_,
      Nat.mod_lt _ (by decide), ?_⟩
    · omega
    · simp only [texIndex, TW]
      omega
  · obtain ⟨m, e, hsz, hw, -⟩ := fillTexture_spec tex0 h0
    have hN : TW * TH * 3 = 256 * 256 * 3 := rfl
    rw [hN] at hsz hw
    have hcount : ∀ i : Nat, m.writes.count i = (List.range (256 * 256 * 3)).count i := by
      intro i
      rw [hw, List.count_reverse]
    refine ⟨m, e, hsz, by rw [hw, List.reverse_reverse], fun i hi => ?_, fun i hi => ?_⟩
    · rw [hcount]
      exact List.count_eq_one_of_mem (List.nodup_range _) (List.mem_range.mpr hi)
    · rw [hcount]
      exact List.count_eq_zero_of_not_mem (fun h => absurd (List.mem_range.mp h) (by omega))

theorem C10_index_safe_witness :
    (mkArray (TW * TH * 3) 0).size = TW * TH * 3 ∧
    ∃ m, fillTexture (mkArray (TW * TH * 3) 0) = some m ∧ m.bytes.size = 256 * 256 * 3 ∧
      m.writes.reverse = List.range (256 * 256 * 3) ∧
      (∀ i : Nat, i < 256 * 256 * 3 → m.writes.count i = 1) ∧
      (∀ i : Nat, 256 * 256 * 3 ≤ i → m.writes.count i = 0) :=
  ⟨Array.size_mkArray _ _,
    (C10_index_safe (mkArray (TW * TH * 3) 0) (Array.size_mkArray _ _)).2.2.2⟩

end App
